import Mathlib

/-!
# Verification of the `across-tabs` messaging module (`src/index.js`)

A shallow embedding of the repository's single source file, `src/index.js`,
together with proofs about its behaviour.

Conventions of the embedding:
* JavaScript strings are `List Char` (abbreviated `JStr`).
* Callback handles are opaque values compared by identity; we model them as
  natural numbers (`CB`).  Whether a callback throws when invoked is supplied
  as a semantic environment `throws : CB → Bool`.
* The module-global `callbacks` object is a function from topic to the
  optional array of registered callbacks (`Registry`).
* JSON values are the inductive `Json`; numbers are modelled as integers
  (floating-point payloads are outside the model).
* `localStorage` and the per-context pending `queue` are association lists;
  storage mutations performed by a send are reported as the list of
  `StorageEvent`s they fire in *other* browsing contexts.
-/

namespace AcrossTabs

abbrev JStr := List Char

abbrev CB := Nat

/-- JSON values, as produced by `JSON.parse` / consumed by `JSON.stringify`.
Numbers are modelled as integers; object members keep their textual order. -/
inductive Json where
  | null
  | bool (b : Bool)
  | num (n : Int)
  | str (s : JStr)
  | arr (elems : List Json)
  | obj (members : List (JStr × Json))

/-- The module-global `callbacks` object: topic → array of callbacks. -/
abbrev Registry := JStr → Option (List CB)

def emptyReg : Registry := fun _ => none

/-- `function on(topic, callback)` from `src/index.js`:
creates `callbacks[topic] = []` when absent, then pushes `callback`. -/
def onReg (r : Registry) (t : JStr) (c : CB) : Registry :=
  fun u => if u = t then some (((r t).getD []) ++ [c]) else r u

/-- JS `Array.prototype.indexOf`: index of the first identical element, `-1` if absent. -/
def jsIndexOf (l : List CB) (c : CB) : Int :=
  match l with
  | [] => -1
  | x :: rest =>
    if x = c then 0
    else
      let i := jsIndexOf rest c
      if i < 0 then -1 else i + 1

/-- JS `Array.prototype.splice(i, 1)`: removes one element starting at
`i` (negative `i` counts from the end, clamped at `0`). -/
def spliceOne (l : List CB) (i : Int) : List CB :=
  let start : Nat := if i < 0 then ((l.length : Int) + i).toNat else min i.toNat l.length
  l.take start ++ l.drop (start + 1)

/-- `function off(topic, callback)` from `src/index.js`.  `c = some cb`
models a function argument; `c = none` models calling `off` without one. -/
def offReg (r : Registry) (t : JStr) (c : Option CB) : Registry :=
  match r t with
  | none => r
  | some l =>
    match c with
    | some cb =>
      let l2 := spliceOne l (jsIndexOf l cb)
      if l2.length = 0 then fun u => if u = t then none else r u
      else fun u => if u = t then some l2 else r u
    | none => fun u => if u = t then none else r u

/-- `callbacks[topic].forEach(callback => callback(data))`: each callback is
invoked with `data`; an exception thrown by one aborts the iteration, so the
result is the list of invocations that actually happen, in order. -/
def forEachCall (throws : CB → Bool) (d : Json) : List CB → List (CB × Json)
  | [] => []
  | c :: rest => if throws c then [(c, d)] else (c, d) :: forEachCall throws d rest

/-- `function broadcast(topic, data)` from `src/index.js`: the invocation
sequence it produces (empty when the topic is unknown). -/
def broadcastRun (throws : CB → Bool) (r : Registry) (t : JStr) (d : Json) :
    List (CB × Json) :=
  match r t with
  | none => []
  | some l => forEachCall throws d l

/-- Semantic environment in which no callback throws. -/
def noThrow : CB → Bool := fun _ => false

/-! ## `JSON.stringify` -/

def lbrace : Char := Char.ofNat 123

def rbrace : Char := Char.ofNat 125

def digitChar (d : Nat) : Char := Char.ofNat (48 + d)

/-- Lowercase hexadecimal digit, as emitted in `\u00XX` escapes. -/
def hexChar (d : Nat) : Char :=
  if d < 10 then Char.ofNat (48 + d) else Char.ofNat (87 + d)

/-- Decimal digits of `n`, most significant first, no leading zeros.  The
fuel argument only drives structural recursion; `natToDigits` always passes
enough. -/
def natToDigitsAux : Nat → Nat → List Char
  | 0, _ => []
  | fuel + 1, n =>
    if n < 10 then [digitChar n]
    else natToDigitsAux fuel (n / 10) ++ [digitChar (n % 10)]

def natToDigits (n : Nat) : List Char := natToDigitsAux (n + 1) n

/-- How `JSON.stringify` renders an integer number. -/
def intToChars (i : Int) : List Char :=
  if i < 0 then '-' :: natToDigits i.natAbs else natToDigits i.natAbs

/-- How `JSON.stringify` escapes one character inside a string literal. -/
def escapeChar (c : Char) : List Char :=
  if c = '"' then ['\\', '"']
  else if c = '\\' then ['\\', '\\']
  else if c = Char.ofNat 8 then ['\\', 'b']
  else if c = Char.ofNat 12 then ['\\', 'f']
  else if c = '\n' then ['\\', 'n']
  else if c = '\r' then ['\\', 'r']
  else if c = '\t' then ['\\', 't']
  else if c.toNat < 32 then ['\\', 'u', '0', '0', hexChar (c.toNat / 16), hexChar (c.toNat % 16)]
  else [c]

def escBody (s : JStr) : List Char := (s.map escapeChar).flatten

/-- A JSON string literal: `"` + escaped body + `"`. -/
def quoteStr (s : JStr) : List Char := '"' :: (escBody s ++ ['"'])

mutual

/-- `JSON.stringify` (no spacing argument, as called by `send`). -/
def stringifyJson : Json → List Char
  | .null => "null".data
  | .bool true => "true".data
  | .bool false => "false".data
  | .num n => intToChars n
  | .str s => quoteStr s
  | .arr xs => '[' :: (stringifyElems xs ++ [']'])
  | .obj kvs => lbrace :: (stringifyMembers kvs ++ [rbrace])

def stringifyElems : List Json → List Char
  | [] => []
  | [x] => stringifyJson x
  | x :: y :: rest => stringifyJson x ++ ',' :: stringifyElems (y :: rest)

def stringifyMembers : List (JStr × Json) → List Char
  | [] => []
  | [(k, v)] => quoteStr k ++ ':' :: stringifyJson v
  | (k, v) :: m :: rest => quoteStr k ++ ':' :: stringifyJson v ++ ',' :: stringifyMembers (m :: rest)

end

/-! ## `JSON.parse`

A recursive-descent parser with explicit fuel (the JS primitive, being
external, is modelled here from its standard semantics; numbers are
restricted to integer literals — fractional and exponent forms fall outside
the integer number model and are rejected). -/

def isWsChar (c : Char) : Bool := c = ' ' || c = '\t' || c = '\n' || c = '\r'

def skipWs : List Char → List Char
  | [] => []
  | c :: rest => if isWsChar c then skipWs rest else c :: rest

def hexVal (c : Char) : Option Nat :=
  if '0' ≤ c && c ≤ '9' then some (c.toNat - 48)
  else if 'a' ≤ c && c ≤ 'f' then some (c.toNat - 87)
  else if 'A' ≤ c && c ≤ 'F' then some (c.toNat - 55)
  else none

def unescapeChar (c : Char) : Option Char :=
  if c = '"' then some '"'
  else if c = '\\' then some '\\'
  else if c = '/' then some '/'
  else if c = 'b' then some (Char.ofNat 8)
  else if c = 'f' then some (Char.ofNat 12)
  else if c = 'n' then some '\n'
  else if c = 'r' then some '\r'
  else if c = 't' then some '\t'
  else none

/-- Body of a JSON string literal, after the opening quote.  Returns the
decoded characters and the input after the closing quote. -/
def parseStrBody : List Char → Option (JStr × List Char)
  | [] => none
  | c :: rest =>
    if c = '"' then some ([], rest)
    else if c = '\\' then
      match rest with
      | [] => none
      | e :: rest2 =>
        if e = 'u' then
          match rest2 with
          | h1 :: h2 :: h3 :: h4 :: rest3 =>
            match hexVal h1, hexVal h2, hexVal h3, hexVal h4 with
            | some a, some b, some c2, some d =>
              match parseStrBody rest3 with
              | some (s, r) => some (Char.ofNat (4096 * a + 256 * b + 16 * c2 + d) :: s, r)
              | none => none
            | _, _, _, _ => none
          | _ => none
        else
          match unescapeChar e with
          | some u =>
            match parseStrBody rest2 with
            | some (s, r) => some (u :: s, r)
            | none => none
          | none => none
    else if c.toNat < 32 then none
    else
      match parseStrBody rest with
      | some (s, r) => some (c :: s, r)
      | none => none

def digitVal (c : Char) : Option Nat :=
  if '0' ≤ c && c ≤ '9' then some (c.toNat - 48) else none

/-- Greedily consume decimal digits, folding them onto `acc`. -/
def takeDigits : List Char → Nat → Nat × List Char
  | [], acc => (acc, [])
  | c :: rest, acc =>
    match digitVal c with
    | some d => takeDigits rest (acc * 10 + d)
    | none => (acc, c :: rest)

def startsWithDigit : List Char → Bool
  | [] => false
  | c :: _ => (digitVal c).isSome

/-- Does the remainder continue with a fraction or exponent marker? -/
def numContinues : List Char → Bool
  | c :: _ => c = '.' || c = 'e' || c = 'E'
  | [] => false

/-- The integer part of a JSON number (leading zeros rejected, as by
`JSON.parse`). -/
def parseNatCore : List Char → Option (Nat × List Char)
  | [] => none
  | c :: rest =>
    match digitVal c with
    | none => none
    | some d =>
      if c = '0' then if startsWithDigit rest then none else some (0, rest)
      else some (takeDigits rest d)

/-- A JSON number literal, restricted to the integer forms of the model. -/
def parseNum (s : List Char) : Option (Int × List Char) :=
  match s with
  | [] => none
  | c :: rest =>
    if c = '-' then
      match parseNatCore rest with
      | some (n, r) => if numContinues r then none else some (-(n : Int), r)
      | none => none
    else
      match parseNatCore (c :: rest) with
      | some (n, r) => if numContinues r then none else some ((n : Int), r)
      | none => none

def expectChars (pat s : List Char) : Option (List Char) :=
  if pat.isPrefixOf s then some (s.drop pat.length) else none

mutual

def parseVal : Nat → List Char → Option (Json × List Char)
  | 0, _ => none
  | fuel + 1, s =>
    match skipWs s with
    | [] => none
    | c :: rest =>
      if c = 'n' then
        match expectChars ['u', 'l', 'l'] rest with
        | some r => some (Json.null, r)
        | none => none
      else if c = 't' then
        match expectChars ['r', 'u', 'e'] rest with
        | some r => some (Json.bool true, r)
        | none => none
      else if c = 'f' then
        match expectChars ['a', 'l', 's', 'e'] rest with
        | some r => some (Json.bool false, r)
        | none => none
      else if c = '"' then
        match parseStrBody rest with
        | some (t, r) => some (Json.str t, r)
        | none => none
      else if c = '[' then
        match skipWs rest with
        | [] => none
        | d :: r =>
          if d = ']' then some (Json.arr [], r)
          else
            match parseElems fuel (d :: r) with
            | some (xs, r2) => some (Json.arr xs, r2)
            | none => none
      else if c = lbrace then
        match skipWs rest with
        | [] => none
        | d :: r =>
          if d = rbrace then some (Json.obj [], r)
          else
            match parseMembers fuel (d :: r) with
            | some (kvs, r2) => some (Json.obj kvs, r2)
            | none => none
      else
        match parseNum (c :: rest) with
        | some (n, r) => some (Json.num n, r)
        | none => none

def parseElems : Nat → List Char → Option (List Json × List Char)
  | 0, _ => none
  | fuel + 1, s =>
    match parseVal fuel s with
    | none => none
    | some (j, r) =>
      match skipWs r with
      | [] => none
      | c :: r2 =>
        if c = ',' then
          match parseElems fuel r2 with
          | some (xs, r3) => some (j :: xs, r3)
          | none => none
        else if c = ']' then some ([j], r2)
        else none

def parseMembers : Nat → List Char → Option (List (JStr × Json) × List Char)
  | 0, _ => none
  | fuel + 1, s =>
    match skipWs s with
    | [] => none
    | c :: r =>
      if c = '"' then
        match parseStrBody r with
        | none => none
        | some (k, r2) =>
          match skipWs r2 with
          | [] => none
          | d :: r3 =>
            if d = ':' then
              match parseVal fuel r3 with
              | none => none
              | some (v, r4) =>
                match skipWs r4 with
                | [] => none
                | e :: r5 =>
                  if e = ',' then
                    match parseMembers fuel r5 with
                    | some (kvs, r6) => some ((k, v) :: kvs, r6)
                    | none => none
                  else if e = rbrace then some ([(k, v)], r5)
                  else none
            else none
      else none

end

/-- `JSON.parse`: parse a complete text (surrounding whitespace allowed). -/
def parseJson (s : JStr) : Option Json :=
  match parseVal (s.length + 1) s with
  | some (j, r) =>
    match skipWs r with
    | [] => some j
    | _ => none
  | none => none

/-! ## The Storage-Relay transport (`localStorageApiFactory`) -/

/-- `window.localStorage`, as a key-value association list. -/
abbrev Store := List (JStr × JStr)

/-- The factory-local `queue` object: storage key → pending data values. -/
abbrev Queue := List (JStr × List Json)

def getItem (st : Store) (k : JStr) : Option JStr := List.lookup k st

def setItem (st : Store) (k v : JStr) : Store :=
  if (List.lookup k st).isSome then
    st.map (fun p => if p.1 == k then (k, v) else p)
  else st ++ [(k, v)]

def removeItem (st : Store) (k : JStr) : Store := st.filter (fun p => !(p.1 == k))

def qLookup (q : Queue) (k : JStr) : Option (List Json) := List.lookup k q

def qSet (q : Queue) (k : JStr) (v : List Json) : Queue :=
  if (List.lookup k q).isSome then
    q.map (fun p => if p.1 == k then (k, v) else p)
  else q ++ [(k, v)]

def qDelete (q : Queue) (k : JStr) : Queue := q.filter (fun p => !(p.1 == k))

/-- The `storage` event a mutation fires in every *other* browsing context. -/
structure StorageEvent where
  key : JStr
  oldValue : Option JStr
  newValue : Option JStr
deriving DecidableEq

/-- The mutable state a Storage-Relay context owns: its view of the shared
store, and its pending `queue`. -/
structure LSState where
  store : Store
  queue : Queue

def prefixChars : JStr := "__across-tabs:".data

/-- `const key = prefix + topic`. -/
def storageKey (t : JStr) : JStr := prefixChars ++ t

/-- JS `String.prototype.replace` with a plain-string pattern and empty
replacement: removes the first occurrence of `pat`. -/
def replaceFirst (pat : List Char) : List Char → List Char
  | [] => []
  | c :: rest =>
    if pat.isPrefixOf (c :: rest) then (c :: rest).drop pat.length
    else c :: replaceFirst pat rest

/-- `send(topic, data, includeSelf)` of `localStorageApiFactory`.  Returns
the new context state, the storage events the mutations fire in other
contexts, and the `(topic, data)` arguments of the local `broadcast` calls
it performs. -/
def sendStorage (s : LSState) (topic : JStr) (data : Json) (includeSelf : Bool) :
    LSState × List StorageEvent × List (JStr × Json) :=
  let key := storageKey topic
  match getItem s.store key with
  | none =>
    let v := stringifyJson data
    let st1 := setItem s.store key v
    let st2 := removeItem st1 key
    (⟨st2, s.queue⟩, [⟨key, none, some v⟩, ⟨key, some v, none⟩],
      if includeSelf then [(topic, data)] else [])
  | some _ =>
    let old := (qLookup s.queue key).getD []
    (⟨s.store, qSet s.queue key (old ++ [data])⟩, [], [])

/-- The first `storage` listener (arrival): on a prefixed key whose old
value is null, decode the new value and broadcast it.  Returns the
`(topic, data)` broadcast, or `none` when the guard fails (or `JSON.parse`
throws, which aborts this listener before `broadcast`). -/
def arrivalHandler (e : StorageEvent) : Option (JStr × Json) :=
  if prefixChars.isPrefixOf e.key && e.oldValue == none then
    let topic := replaceFirst prefixChars e.key
    match parseJson (e.newValue.getD "null".data) with
    | some d => some (topic, d)
    | none => none
  else none

/-- The second `storage` listener (departure): on a prefixed key whose new
value is null, drain one entry of `queue[topic]` — note the source indexes
the queue by `topic` here although `send` filled it under `prefix + topic`.
(The `some []` case can only arise from states no `send` produces; the JS
code would there call `send` with `undefined`.) -/
def departureHandler (s : LSState) (e : StorageEvent) :
    LSState × List StorageEvent × List (JStr × Json) :=
  if prefixChars.isPrefixOf e.key && e.newValue == none then
    let topic := replaceFirst prefixChars e.key
    match qLookup s.queue topic with
    | none => (s, [], [])
    | some [] => (s, [], [])
    | some (d :: rest) =>
      let s0 : LSState := ⟨s.store, qSet s.queue topic rest⟩
      let res := sendStorage s0 topic d false
      let s2 : LSState :=
        match qLookup res.1.queue topic with
        | some [] => ⟨res.1.store, qDelete res.1.queue topic⟩
        | _ => res.1
      (s2, res.2.1, res.2.2)
  else (s, [], [])

/-! ## The Direct-Broadcast and Worker-Relay transports -/

/-- The `{topic, data}` object posted through `BroadcastChannel` or a
`SharedWorker` port. -/
structure Envelope where
  topic : JStr
  data : Json

/-- `send` of `broadcastChannelApiFactory`: the envelopes posted on the
channel, and the local `broadcast` calls performed. -/
def sendDirect (t : JStr) (d : Json) (includeSelf : Bool) :
    List Envelope × List (JStr × Json) :=
  ([⟨t, d⟩], if includeSelf then [(t, d)] else [])

/-- `channel.onmessage = e => broadcast(e.data.topic, e.data.data)`. -/
def channelOnMessage (e : Envelope) : JStr × Json := (e.topic, e.data)

/-- `send` of `sharedWorkerApiFactory` (same shape as the channel's). -/
def sendWorker (t : JStr) (d : Json) (includeSelf : Bool) :
    List Envelope × List (JStr × Json) :=
  ([⟨t, d⟩], if includeSelf then [(t, d)] else [])

/-! ## The Fallback transport (`emptyApiFactory`) -/

/-- `noop`: warns if a `window` global exists; touches nothing else.
Returns the registry unchanged and the number of warnings emitted. -/
def noop (windowDefined : Bool) (r : Registry) : Registry × Nat :=
  (r, if windowDefined then 1 else 0)

def emptyApiOn (windowDefined : Bool) (r : Registry) (_t : JStr) (_c : CB) :
    Registry × Nat := noop windowDefined r

def emptyApiOff (windowDefined : Bool) (r : Registry) (_t : JStr) (_c : Option CB) :
    Registry × Nat := noop windowDefined r

def emptyApiSend (windowDefined : Bool) (r : Registry) (_t : JStr) (_d : Json)
    (_includeSelf : Bool) : Registry × Nat := noop windowDefined r

/-! ## The selector (top-level `if`/`else` chain) -/

/-- The capabilities the selector probes. -/
structure Env where
  windowDefined : Bool
  hasBroadcastChannel : Bool
  hasSharedWorker : Bool
  hasLocalStorage : Bool

inductive Transport where
  | direct
  | worker
  | storageRelay
  | fallback
deriving DecidableEq

/-- The top-level `if`/`else` chain of `src/index.js`, deciding which
factory runs.  The Worker-Relay guard is the source's literal
`false && 'SharedWorker' in window`. -/
def selectTransport (e : Env) : Transport :=
  if e.windowDefined then
    if e.hasBroadcastChannel then Transport.direct
    else if false && e.hasSharedWorker then Transport.worker
    else if e.hasLocalStorage then Transport.storageRelay
    else Transport.fallback
  else Transport.fallback

/-! ## Module evaluation and the `module.exports = API` line

JS `const` declarations are block-scoped.  We model evaluation of the
module body with an explicit scope stack: every branch of the selector is a
block `\x7b const API = ... \x7d`, so its binding is dropped when the block
ends; the final `module.exports = API` then resolves `API` in the module's
top-level scope.  (The module's other top-level bindings — `callbacks` and
the five functions — are omitted, none being named `API`.) -/

abbrev ScopeStack := List (List (JStr × Transport))

def pushScope (s : ScopeStack) : ScopeStack := [] :: s

def popScope (s : ScopeStack) : ScopeStack := s.tail

def declareConst (s : ScopeStack) (n : JStr) (v : Transport) : ScopeStack :=
  match s with
  | [] => []
  | top :: rest => ((n, v) :: top) :: rest

def lookupVar (s : ScopeStack) (n : JStr) : Option Transport :=
  match s with
  | [] => none
  | top :: rest =>
    match List.lookup n top with
    | some v => some v
    | none => lookupVar rest n

/-- Evaluate the module body: run the selected branch's block (which
declares `const API`), then evaluate `module.exports = API`. -/
def moduleEval (e : Env) : Except JStr Transport :=
  let afterSelector :=
    popScope (declareConst (pushScope ([[]] : ScopeStack)) "API".data (selectTransport e))
  match lookupVar afterSelector "API".data with
  | some api => Except.ok api
  | none => Except.error "ReferenceError: API is not defined".data

/-! # Lemmas about the Subscriber Registry -/

/-- The array of callbacks a `broadcast(t, _)` iterates over. -/
def regList (r : Registry) (t : JStr) : List CB := (r t).getD []

theorem forEachCall_noThrow (d : Json) (l : List CB) :
    forEachCall noThrow d l = l.map (fun c => (c, d)) := by
  induction l with
  | nil => rfl
  | cons c rest ih => simp [forEachCall, noThrow, ih]

theorem broadcastRun_noThrow (r : Registry) (t : JStr) (d : Json) :
    broadcastRun noThrow r t d = (regList r t).map (fun c => (c, d)) := by
  unfold broadcastRun regList
  cases r t <;> simp [forEachCall_noThrow]

theorem regList_onReg (r : Registry) (t : JStr) (c : CB) (u : JStr) :
    regList (onReg r t c) u = if u = t then regList r t ++ [c] else regList r u := by
  unfold regList onReg
  by_cases h : u = t <;> simp [h]

/-- All registrations, applied in order starting from the empty registry. -/
def applyOns (calls : List (JStr × CB)) : Registry :=
  calls.foldl (fun r p => onReg r p.1 p.2) emptyReg

/-- The callbacks registered for `t` among `calls`, in call order. -/
def registrationsFor (calls : List (JStr × CB)) (t : JStr) : List CB :=
  (calls.filter (fun p => p.1 == t)).map (fun p => p.2)

theorem regList_foldl_onReg (calls : List (JStr × CB)) :
    ∀ (r : Registry) (t : JStr),
      regList (calls.foldl (fun r p => onReg r p.1 p.2) r) t
        = regList r t ++ registrationsFor calls t := by
  induction calls with
  | nil => intro r t; simp [registrationsFor]
  | cons p rest ih =>
    intro r t
    rw [List.foldl_cons, ih]
    unfold registrationsFor
    by_cases h : p.1 = t
    · simp [List.filter, h, regList_onReg, registrationsFor]
    · have h2 : ¬t = p.1 := fun hh => h hh.symm
      have hb : (p.1 == t) = false := by simp [h]
      simp [List.filter, h, h2, hb, regList_onReg, registrationsFor]

/-- C7: after any sequence of `on` calls starting from the empty registry,
`broadcast(t, d)` (with no callback throwing) invokes exactly the callbacks
registered for `t`, once per registration, each with `d`, in registration
order. -/
theorem c7_registry_delivery (calls : List (JStr × CB)) (t : JStr) (d : Json) :
    broadcastRun noThrow (applyOns calls) t d
      = (registrationsFor calls t).map (fun c => (c, d)) := by
  rw [broadcastRun_noThrow]
  unfold applyOns
  rw [regList_foldl_onReg]
  simp [regList, emptyReg]

/-- C3 (code bug): with callbacks `1` then `2` registered on topic `"T"` and
callback `1` throwing, `broadcast` invokes only `1` — the `forEach` is
aborted by the exception and callback `2`, registered after the raiser, is
never invoked, contrary to the required isolation. -/
theorem c3_throwing_callback_aborts_broadcast :
    broadcastRun (fun c => c == 1) (onReg (onReg emptyReg "T".data 1) "T".data 2)
      "T".data Json.null = [(1, Json.null)] := by
  rfl

/-! # Lemmas about `off` -/

theorem jsIndexOf_nonneg_of_mem {l : List CB} {c : CB} (h : c ∈ l) :
    0 ≤ jsIndexOf l c := by
  induction l with
  | nil => cases h
  | cons x rest ih =>
    unfold jsIndexOf
    by_cases hx : x = c
    · simp [hx]
    · have hc : c ∈ rest := by
        rcases List.mem_cons.1 h with h1 | h1
        · exact absurd h1.symm hx
        · exact h1
      have := ih hc
      simp only [hx, if_false]
      omega

theorem jsIndexOf_neg_of_not_mem {l : List CB} {c : CB} (h : c ∉ l) :
    jsIndexOf l c = -1 := by
  induction l with
  | nil => rfl
  | cons x rest ih =>
    have hx : ¬x = c := fun hh => h (hh ▸ List.mem_cons_self x rest)
    have hr : c ∉ rest := fun hh => h (List.mem_cons_of_mem x hh)
    simp [jsIndexOf, hx, ih hr]

theorem jsIndexOf_lt_length {l : List CB} {c : CB} (h : c ∈ l) :
    jsIndexOf l c < l.length := by
  induction l with
  | nil => cases h
  | cons y tl ih =>
    unfold jsIndexOf
    by_cases hy : y = c
    · simp [hy]
    · have hc2 : c ∈ tl := by
        rcases List.mem_cons.1 h with h1 | h1
        · exact absurd h1.symm hy
        · exact h1
      have := ih hc2
      have := jsIndexOf_nonneg_of_mem hc2
      simp only [hy, if_false, List.length_cons]
      omega

theorem jsIndexOf_cons_ne {c x : CB} (rest : List CB) (hx : ¬x = c)
    (hnn : 0 ≤ jsIndexOf rest c) :
    jsIndexOf (x :: rest) c = jsIndexOf rest c + 1 := by
  have hstep : jsIndexOf (x :: rest) c
      = if x = c then 0 else if jsIndexOf rest c < 0 then -1 else jsIndexOf rest c + 1 := rfl
  rw [hstep, if_neg hx, if_neg (by omega)]

theorem spliceOne_zero (x : CB) (rest : List CB) : spliceOne (x :: rest) 0 = rest := by
  simp [spliceOne]

theorem spliceOne_cons_succ (x : CB) (rest : List CB) (i : Int) (h0 : 0 ≤ i)
    (hlt : i < rest.length) :
    spliceOne (x :: rest) (i + 1) = x :: spliceOne rest i := by
  unfold spliceOne
  have hn1 : ¬(i + 1 < 0) := by omega
  have hn0 : ¬(i < 0) := by omega
  simp only [hn1, hn0, if_false]
  have ht1 : (i + 1).toNat = i.toNat + 1 := by omega
  have ht2 : i.toNat < rest.length := by omega
  rw [ht1]
  have hmin1 : min (i.toNat + 1) (x :: rest).length = i.toNat + 1 := by
    simp only [List.length_cons]; omega
  have hmin2 : min i.toNat rest.length = i.toNat := by omega
  rw [hmin1, hmin2]
  simp [List.take_succ_cons, List.drop_succ_cons]

/-- When the callback occurs in the array, `splice(indexOf(c), 1)` removes
exactly its first occurrence. -/
theorem spliceOne_jsIndexOf_mem {l : List CB} {c : CB} (h : c ∈ l) :
    spliceOne l (jsIndexOf l c) = l.erase c := by
  induction l with
  | nil => cases h
  | cons x rest ih =>
    by_cases hx : x = c
    · subst hx
      have h0 : jsIndexOf (x :: rest) x = 0 := by simp [jsIndexOf]
      rw [h0, spliceOne_zero, List.erase_cons_head]
    · have hc : c ∈ rest := by
        rcases List.mem_cons.1 h with h1 | h1
        · exact absurd h1.symm hx
        · exact h1
      have hnn := jsIndexOf_nonneg_of_mem hc
      have hlt := jsIndexOf_lt_length hc
      have hxb : (x == c) = false := by simp [hx]
      rw [jsIndexOf_cons_ne rest hx hnn, List.erase_cons, hxb,
        spliceOne_cons_succ x rest _ hnn hlt, ih hc]
      simp

/-- When the callback does not occur, `indexOf` gives `-1` and
`splice(-1, 1)` removes the **last** element. -/
theorem spliceOne_jsIndexOf_not_mem {l : List CB} {c : CB} (h : c ∉ l) :
    spliceOne l (jsIndexOf l c) = l.dropLast := by
  rw [jsIndexOf_neg_of_not_mem h]
  unfold spliceOne
  simp only [show (-1 : Int) < 0 from by omega, if_true]
  have h1 : ((l.length : Int) + -1).toNat = l.length - 1 := by omega
  rw [h1]
  have h2 : l.length - 1 + 1 ≥ l.length := by omega
  rw [List.drop_eq_nil_of_le h2, List.append_nil, ← List.dropLast_eq_take]

theorem offReg_apply_mem {r : Registry} {t : JStr} {c : CB} {l : List CB}
    (h : r t = some l) (hm : c ∈ l) :
    offReg r t (some c) t = if l.erase c = [] then none else some (l.erase c) := by
  unfold offReg
  rw [h]
  simp only [spliceOne_jsIndexOf_mem hm, List.length_eq_zero]
  by_cases he : l.erase c = [] <;> simp [he]

theorem offReg_apply_not_mem {r : Registry} {t : JStr} {c : CB} {l : List CB}
    (h : r t = some l) (hm : c ∉ l) :
    offReg r t (some c) t = if l.dropLast = [] then none else some l.dropLast := by
  unfold offReg
  rw [h]
  simp only [spliceOne_jsIndexOf_not_mem hm, List.length_eq_zero]
  by_cases he : l.dropLast = [] <;> simp [he]

theorem offReg_apply_noArg {r : Registry} {t : JStr} {l : List CB}
    (h : r t = some l) : offReg r t none t = none := by
  unfold offReg
  rw [h]
  simp

theorem offReg_unknown {r : Registry} {t : JStr} (h : r t = none) (c : Option CB) :
    offReg r t c = r := by
  unfold offReg
  rw [h]

theorem offReg_no_invoke {r : Registry} {t : JStr} {c : CB} {l : List CB}
    (h : r t = some l) (hcount : l.count c ≤ 1) (d : Json) :
    c ∉ (broadcastRun noThrow (offReg r t (some c)) t d).map Prod.fst := by
  rw [broadcastRun_noThrow]
  simp only [List.map_map]
  have hid : (Prod.fst ∘ fun c : CB => (c, d)) = id := rfl
  rw [hid, List.map_id]
  by_cases hm : c ∈ l
  · have hres := offReg_apply_mem h hm
    have hnotin : c ∉ l.erase c := by
      have h1 : l.count c = 1 :=
        le_antisymm hcount (List.count_pos_iff.2 hm)
      have h2 : (l.erase c).count c = 0 := by
        rw [List.count_erase_self, h1]
      exact fun hmem => by
        have := List.count_pos_iff.2 hmem
        omega
    by_cases he : l.erase c = []
    · rw [he] at hres
      simp [regList, hres]
    · simp only [regList, hres, if_neg he, Option.getD_some]
      exact hnotin
  · have hres := offReg_apply_not_mem h hm
    have hnotin : c ∉ l.dropLast := fun hmem =>
      hm ((List.dropLast_sublist l).subset hmem)
    by_cases he : l.dropLast = []
    · rw [he] at hres
      simp [regList, hres]
    · simp only [regList, hres, if_neg he, Option.getD_some]
      exact hnotin

/-- C2 (counterexample): with `callbacks = \x7b T: [1] \x7d`, calling
`off(T, 2)` — a callback that is **not** registered — does not leave the
registry untouched: `indexOf` returns `-1`, `splice(-1, 1)` removes the last
entry `1`, and the now-empty topic is deleted.  Also, a callback registered
twice is still invoked by `broadcast` after one `off`. -/
theorem c2_off_counterexample :
    (offReg (onReg emptyReg "T".data 1) "T".data (some 2)) "T".data ≠ some [1]
    ∧ 1 ∈ (broadcastRun noThrow
        (offReg (onReg (onReg emptyReg "T".data 1) "T".data 1) "T".data (some 1))
        "T".data Json.null).map Prod.fst := by
  exact ⟨by decide, by decide⟩

/-- C2 (amended): `off(topic, callback)` with a function argument removes
the first identical entry when one exists, and removes the **last** entry
when none matches; if the resulting list is empty, or no callback argument
is given, the topic entry is removed entirely; `off` on an unknown topic is
a no-op; and after `off(T, C)` a broadcast on `T` does not invoke `C`
provided `C` was registered at most once. -/
theorem c2_off_amended :
    (∀ (r : Registry) (t : JStr) (c : CB) (l : List CB), r t = some l → c ∈ l →
      offReg r t (some c) t = if l.erase c = [] then none else some (l.erase c))
    ∧ (∀ (r : Registry) (t : JStr) (c : CB) (l : List CB), r t = some l → c ∉ l →
      offReg r t (some c) t = if l.dropLast = [] then none else some l.dropLast)
    ∧ (∀ (r : Registry) (t : JStr) (l : List CB), r t = some l →
      offReg r t none t = none)
    ∧ (∀ (r : Registry) (t : JStr) (c : Option CB), r t = none → offReg r t c = r)
    ∧ (∀ (r : Registry) (t : JStr) (c : CB) (d : Json) (l : List CB), r t = some l →
      l.count c ≤ 1 →
      c ∉ (broadcastRun noThrow (offReg r t (some c)) t d).map Prod.fst) :=
  ⟨fun _ _ _ _ h hm => offReg_apply_mem h hm,
   fun _ _ _ _ h hm => offReg_apply_not_mem h hm,
   fun _ _ _ h => offReg_apply_noArg h,
   fun _ _ c h => offReg_unknown h c,
   fun _ _ _ d _ h hc => offReg_no_invoke h hc d⟩

/-- Witness for `c2_off_amended` at concrete inputs. -/
theorem c2_off_amended_witness :
    (offReg (onReg (onReg emptyReg "T".data 1) "T".data 2) "T".data (some 1)) "T".data
        = some [2]
    ∧ (offReg (onReg emptyReg "T".data 1) "T".data (some 9)) "T".data = none
    ∧ (offReg (onReg emptyReg "T".data 1) "T".data none) "T".data = none
    ∧ offReg emptyReg "T".data (some 1) = emptyReg
    ∧ 1 ∉ (broadcastRun noThrow (offReg (onReg emptyReg "T".data 1) "T".data (some 1))
        "T".data Json.null).map Prod.fst :=
  ⟨(c2_off_amended.1 (onReg (onReg emptyReg "T".data 1) "T".data 2) "T".data 1 [1, 2]
      (by decide) (by decide)).trans (by decide),
   (c2_off_amended.2.1 (onReg emptyReg "T".data 1) "T".data 9 [1]
      (by decide) (by decide)).trans (by decide),
   c2_off_amended.2.2.1 (onReg emptyReg "T".data 1) "T".data [1] (by decide),
   c2_off_amended.2.2.2.1 emptyReg "T".data (some 1) rfl,
   c2_off_amended.2.2.2.2 (onReg emptyReg "T".data 1) "T".data 1 Json.null [1]
      (by decide) (by decide)⟩

/-! # Lemmas about the Storage-Relay transport -/

theorem filter_ne_of_lookup_none {st : Store} {k : JStr}
    (h : List.lookup k st = none) : st.filter (fun p => !(p.1 == k)) = st := by
  induction st with
  | nil => rfl
  | cons a rest ih =>
    rw [List.lookup] at h
    by_cases hk : k = a.1
    · have hkb : (k == a.1) = true := by simp [hk]
      rw [hkb] at h
      cases h
    · have hkb : (k == a.1) = false := by simp [hk]
      rw [hkb] at h
      have hk2 : ¬a.1 = k := fun hh => hk hh.symm
      have hb : (a.1 == k) = false := by simp [hk2]
      simp [List.filter, hb, ih h]

/-- `setItem` then `removeItem` on a key the store does not hold restores
the store exactly: the write-then-delete convention leaves no trace. -/
theorem removeItem_setItem_fresh {st : Store} {k : JStr} (v : JStr)
    (h : getItem st k = none) : removeItem (setItem st k v) k = st := by
  unfold getItem at h
  unfold setItem removeItem
  rw [h]
  simp only [Option.isSome_none, Bool.false_eq_true, if_false, List.filter_append]
  rw [filter_ne_of_lookup_none h]
  simp

/-- The empty-slot branch of the Storage-Relay `send`: write
`JSON.stringify(data)`, remove it in the same step (restoring the store),
fire the set/remove event pair in other contexts, and broadcast locally
exactly when `includeSelf`. -/
theorem sendStorage_empty {s : LSState} {t : JStr} (d : Json) (inc : Bool)
    (h : getItem s.store (storageKey t) = none) :
    sendStorage s t d inc =
      (⟨s.store, s.queue⟩,
       [⟨storageKey t, none, some (stringifyJson d)⟩,
        ⟨storageKey t, some (stringifyJson d), none⟩],
       if inc then [(t, d)] else []) := by
  unfold sendStorage
  simp only [h]
  rw [removeItem_setItem_fresh (stringifyJson d) h]

/-- The busy-slot branch of the Storage-Relay `send`: nothing is written,
no event fires, no local broadcast happens, and `data` is appended to the
Pending Queue entry of the **prefixed** storage key. -/
theorem sendStorage_busy {s : LSState} {t : JStr} {v : JStr} (d : Json) (inc : Bool)
    (h : getItem s.store (storageKey t) = some v) :
    sendStorage s t d inc =
      (⟨s.store, qSet s.queue (storageKey t)
          ((qLookup s.queue (storageKey t)).getD [] ++ [d])⟩, [], []) := by
  unfold sendStorage
  simp only [h]

/-- Any `send` the departure listener performs passes `includeSelf`
implicitly, i.e. the default `false`: it never broadcasts locally. -/
theorem sendStorage_default_no_self (s : LSState) (t : JStr) (d : Json) :
    (sendStorage s t d false).2.2 = [] := by
  unfold sendStorage
  cases hg : getItem s.store (storageKey t) <;> simp [hg]

theorem departureHandler_no_self_broadcast (s : LSState) (e : StorageEvent) :
    (departureHandler s e).2.2 = [] := by
  unfold departureHandler
  by_cases hg : (prefixChars.isPrefixOf e.key && e.newValue == none) = true
  · simp only [hg, if_true]
    rcases hq : qLookup s.queue (replaceFirst prefixChars e.key) with _ | ⟨_ | ⟨d, rest⟩⟩
    · simp [hq]
    · simp [hq]
    · simp [hq, sendStorage_default_no_self]
  · simp only [Bool.not_eq_true] at hg
    simp [hg]

/-! # Claims about the Storage-Relay send protocol -/

/-- C5: the Storage-Relay `send` computes `K = prefix + topic`; when the
slot at `K` is empty it writes `JSON.stringify(data)` and removes it in the
same synchronous step (the store is unchanged when `send` returns, so the
slot is empty again), broadcasting locally exactly when `includeSelf`;
when the slot is occupied it appends `data` to the Pending Queue entry for
`K` instead of writing (no event, no broadcast). -/
theorem c5_send_protocol (s : LSState) (t : JStr) (d : Json) (inc : Bool) :
    (getItem s.store (storageKey t) = none →
      sendStorage s t d inc =
        (⟨s.store, s.queue⟩,
         [⟨storageKey t, none, some (stringifyJson d)⟩,
          ⟨storageKey t, some (stringifyJson d), none⟩],
         if inc then [(t, d)] else []))
    ∧ (∀ v, getItem s.store (storageKey t) = some v →
      sendStorage s t d inc =
        (⟨s.store, qSet s.queue (storageKey t)
            ((qLookup s.queue (storageKey t)).getD [] ++ [d])⟩, [], [])) :=
  ⟨fun h => sendStorage_empty d inc h, fun _ h => sendStorage_busy d inc h⟩

/-- Witness for `c5_send_protocol`: a send on the empty store, and a send
while the slot holds an in-flight value. -/
theorem c5_send_protocol_witness :
    sendStorage ⟨[], []⟩ "score".data (Json.num 7) true =
      (⟨[], []⟩,
       [⟨storageKey "score".data, none, some (stringifyJson (Json.num 7))⟩,
        ⟨storageKey "score".data, some (stringifyJson (Json.num 7)), none⟩],
       [("score".data, Json.num 7)])
    ∧ sendStorage ⟨[(storageKey "score".data, "1".data)], []⟩ "score".data (Json.num 7) true =
      (⟨[(storageKey "score".data, "1".data)],
        [(storageKey "score".data, [Json.num 7])]⟩, [], []) :=
  ⟨((c5_send_protocol ⟨[], []⟩ "score".data (Json.num 7) true).1 rfl).trans rfl,
   ((c5_send_protocol ⟨[(storageKey "score".data, "1".data)], []⟩ "score".data
       (Json.num 7) true).2 "1".data rfl).trans rfl⟩

/-- C4 (counterexample): on the Storage-Relay transport, a
`send('T', 2, true)` issued while the slot for `T` is occupied is placed on
the Pending Queue and invokes **no** local subscriber — not the exactly-once
synchronous delivery the claim requires for `includeSelf = true` — and a
later departure event does not deliver it locally either. -/
theorem c4_includeSelf_counterexample :
    (sendStorage ⟨[(storageKey "T".data, "0".data)], []⟩ "T".data (Json.num 2) true).2.2
        ≠ [("T".data, Json.num 2)]
    ∧ (departureHandler
        ⟨[], (sendStorage ⟨[(storageKey "T".data, "0".data)], []⟩ "T".data
            (Json.num 2) true).1.queue⟩
        ⟨storageKey "T".data, some "0".data, none⟩).2.2 = [] :=
  ⟨fun h => List.noConfusion h, rfl⟩

/-- C4 (amended): on the Direct-Broadcast and Worker-Relay transports, and
on Storage-Relay sends whose slot is empty at call time, `includeSelf =
false` means the sender's own subscribers are never invoked as a direct
result of the call, and `includeSelf = true` means the local broadcast runs
exactly once, synchronously, with the original data.  A Storage-Relay send
that is enqueued invokes no local subscriber, and the queue records only the
data — `includeSelf` is not retained — while the departure listener's
re-send always uses the default `includeSelf = false`, so a queued send
never delivers to the sender's own subscribers. -/
theorem c4_includeSelf_amended :
    (∀ (t : JStr) (d : Json) (inc : Bool),
      (sendDirect t d inc).2 = if inc then [(t, d)] else [])
    ∧ (∀ (t : JStr) (d : Json) (inc : Bool),
      (sendWorker t d inc).2 = if inc then [(t, d)] else [])
    ∧ (∀ (s : LSState) (t : JStr) (d : Json) (inc : Bool),
      getItem s.store (storageKey t) = none →
      (sendStorage s t d inc).2.2 = if inc then [(t, d)] else [])
    ∧ (∀ (s : LSState) (t : JStr) (d : Json) (inc : Bool) (v : JStr),
      getItem s.store (storageKey t) = some v →
      (sendStorage s t d inc).2.2 = []
      ∧ (sendStorage s t d inc).1.queue
          = qSet s.queue (storageKey t) ((qLookup s.queue (storageKey t)).getD [] ++ [d]))
    ∧ (∀ (s : LSState) (e : StorageEvent), (departureHandler s e).2.2 = []) :=
  ⟨fun _ _ _ => rfl,
   fun _ _ _ => rfl,
   fun _ _ d inc h => by rw [sendStorage_empty d inc h],
   fun _ _ d inc _ h => by rw [sendStorage_busy d inc h]; exact ⟨rfl, rfl⟩,
   fun s e => departureHandler_no_self_broadcast s e⟩

/-- Witness for `c4_includeSelf_amended` at concrete inputs. -/
theorem c4_includeSelf_amended_witness :
    (sendDirect "x".data (Json.num 1) true).2 = [("x".data, Json.num 1)]
    ∧ (sendWorker "x".data (Json.num 1) false).2 = []
    ∧ (sendStorage ⟨[], []⟩ "x".data (Json.num 1) true).2.2 = [("x".data, Json.num 1)]
    ∧ (sendStorage ⟨[(storageKey "x".data, "0".data)], []⟩ "x".data (Json.num 1) true).2.2 = []
    ∧ (departureHandler ⟨[], []⟩ ⟨storageKey "x".data, some "0".data, none⟩).2.2 = [] :=
  ⟨(c4_includeSelf_amended.1 "x".data (Json.num 1) true).trans rfl,
   (c4_includeSelf_amended.2.1 "x".data (Json.num 1) false).trans rfl,
   (c4_includeSelf_amended.2.2.1 ⟨[], []⟩ "x".data (Json.num 1) true rfl).trans rfl,
   (c4_includeSelf_amended.2.2.2.1 ⟨[(storageKey "x".data, "0".data)], []⟩ "x".data
       (Json.num 1) true "0".data rfl).1,
   c4_includeSelf_amended.2.2.2.2 ⟨[], []⟩ ⟨storageKey "x".data, some "0".data, none⟩⟩

/-- C1 (code bug): `send` fills the Pending Queue under the **prefixed**
storage key, but the departure listener looks it up under the bare topic
name, so a queued message is never drained.  Concretely: with `T`'s slot
occupied by an in-flight value, `send('T', 2)` enqueues `2` under
`__across-tabs:T`; when the slot's departure event then fires, the handler
re-sends nothing, fires no mutation, and leaves `2` queued forever — `b`
is lost, never delivered after `a`. -/
theorem c1_queue_never_drained :
    (sendStorage ⟨[(storageKey "T".data, "0".data)], []⟩ "T".data (Json.num 2) false).1.queue
        = [(storageKey "T".data, [Json.num 2])]
    ∧ departureHandler ⟨[], [(storageKey "T".data, [Json.num 2])]⟩
        ⟨storageKey "T".data, some "0".data, none⟩
        = (⟨[], [(storageKey "T".data, [Json.num 2])]⟩, [], []) :=
  ⟨rfl, rfl⟩

/-! # The selector, the Fallback transport, and the export line -/

/-- C6: the selector's `if`/`else` chain instantiates exactly one
transport, in strict priority order: Direct-Broadcast when the broadcast
primitive exists; the Worker-Relay branch is unreachable (its guard is a
literal `false &&`); else Storage-Relay when the shared store exists; else
the Fallback — and outside a browser always the Fallback. -/
theorem c6_selector_policy :
    ∀ (bc sw ls : Bool),
      (∀ wd, selectTransport ⟨wd, bc, sw, ls⟩ ≠ Transport.worker)
      ∧ selectTransport ⟨true, true, sw, ls⟩ = Transport.direct
      ∧ selectTransport ⟨true, false, sw, true⟩ = Transport.storageRelay
      ∧ selectTransport ⟨true, false, sw, false⟩ = Transport.fallback
      ∧ selectTransport ⟨false, bc, sw, ls⟩ = Transport.fallback := by
  decide

/-- C9 (counterexample): in a non-browser context (`window` undefined — one
of the situations that install the Fallback transport) `noop` emits **no**
console warning, not the exactly-one-per-call the claim states. -/
theorem c9_fallback_counterexample :
    (emptyApiSend false emptyReg "x".data (Json.num 1) false).2 = 0
    ∧ (emptyApiSend false emptyReg "x".data (Json.num 1) false).2 ≠ 1 :=
  ⟨rfl, by decide⟩

/-- C9 (amended): every call to the Fallback transport's `send`, `on` or
`off` leaves the registry untouched, never throws (the operations are total)
and emits exactly one console warning when a `window` global exists and none
otherwise. -/
theorem c9_fallback_amended :
    ∀ (w : Bool) (r : Registry) (t : JStr) (d : Json) (inc : Bool) (c : CB)
      (oc : Option CB),
      emptyApiSend w r t d inc = (r, if w then 1 else 0)
      ∧ emptyApiOn w r t c = (r, if w then 1 else 0)
      ∧ emptyApiOff w r t oc = (r, if w then 1 else 0) :=
  fun _ _ _ _ _ _ _ => ⟨rfl, rfl, rfl⟩

/-- C10: whichever branch the selector takes, `const API` is bound inside
that branch's block scope and dropped when the block ends, so the final
`module.exports = API` resolves `API` in a scope with no such binding:
module evaluation always fails with a `ReferenceError` instead of exporting
the selected transport. -/
theorem c10_export_always_fails (e : Env) :
    moduleEval e = Except.error "ReferenceError: API is not defined".data := rfl

/-! # The JSON round-trip -/

mutual

/-- Fuel needed by `parseVal` for a value (bounded by its printed length). -/
def sizeJ : Json → Nat
  | .null => 1
  | .bool _ => 1
  | .num _ => 1
  | .str _ => 1
  | .arr xs => sizeElems xs + 1
  | .obj kvs => sizeMembers kvs + 1

def sizeElems : List Json → Nat
  | [] => 0
  | x :: xs => sizeJ x + sizeElems xs + 1

def sizeMembers : List (JStr × Json) → Nat
  | [] => 0
  | (_, v) :: kvs => sizeJ v + sizeMembers kvs + 1

end

theorem skipWs_cons_of_not_ws {c : Char} (h : isWsChar c = false) (r : List Char) :
    skipWs (c :: r) = c :: r := by
  simp [skipWs, h]

theorem expectChars_append (p r : List Char) : expectChars p (p ++ r) = some r := by
  unfold expectChars
  rw [if_pos, List.drop_left]
  exact List.isPrefixOf_iff_prefix.2 (List.prefix_append p r)

theorem char_ne_of_toNat_ne {a b : Char} (h : a.toNat ≠ b.toNat) : a ≠ b :=
  fun hh => h (by rw [hh])

theorem digitChar_toNat : ∀ d, d < 10 → (digitChar d).toNat = 48 + d := by decide

theorem digitVal_digitChar : ∀ d, d < 10 → digitVal (digitChar d) = some d := by decide

/-- The first character of a printed number passes the head checks of
`parseVal` straight through to its number branch. -/
theorem numHead_facts :
    ∀ d, d < 10 →
      (isWsChar (digitChar d) = false ∧ digitChar d ≠ 'n' ∧ digitChar d ≠ 't'
        ∧ digitChar d ≠ 'f' ∧ digitChar d ≠ '"' ∧ digitChar d ≠ '['
        ∧ digitChar d ≠ lbrace)
      ∧ (isWsChar '-' = false ∧ '-' ≠ 'n' ∧ '-' ≠ 't' ∧ '-' ≠ 'f' ∧ '-' ≠ '"'
        ∧ '-' ≠ '[' ∧ '-' ≠ lbrace) := by
  decide

theorem natToDigitsAux_succ (fuel n : Nat) :
    natToDigitsAux (fuel + 1) n
      = if n < 10 then [digitChar n]
        else natToDigitsAux fuel (n / 10) ++ [digitChar (n % 10)] := rfl

theorem natToDigitsAux_shape : ∀ fuel n, n < fuel →
    ∃ d ds, natToDigitsAux fuel n = digitChar d :: ds ∧ d < 10 ∧ (1 ≤ n → 1 ≤ d) := by
  intro fuel
  induction fuel with
  | zero => intro n h; omega
  | succ f ih =>
    intro n h
    by_cases h10 : n < 10
    · exact ⟨n, [], by rw [natToDigitsAux_succ, if_pos h10], h10, fun h1 => h1⟩
    · obtain ⟨d, ds, hd, hlt, hpos⟩ := ih (n / 10) (by omega)
      refine ⟨d, ds ++ [digitChar (n % 10)], ?_, hlt, fun _ => hpos (by omega)⟩
      rw [natToDigitsAux_succ, if_neg h10, hd]
      simp

theorem natToDigits_shape (n : Nat) :
    ∃ d ds, natToDigits n = digitChar d :: ds ∧ d < 10 ∧ (1 ≤ n → 1 ≤ d) :=
  natToDigitsAux_shape (n + 1) n (by omega)

theorem takeDigits_cons (c : Char) (r : List Char) (acc : Nat) :
    takeDigits (c :: r) acc
      = match digitVal c with
        | some d => takeDigits r (acc * 10 + d)
        | none => (acc, c :: r) := rfl

theorem takeDigits_cons_digit {c : Char} {d : Nat} (h : digitVal c = some d)
    (r : List Char) (acc : Nat) :
    takeDigits (c :: r) acc = takeDigits r (acc * 10 + d) := by
  rw [takeDigits_cons, h]

theorem takeDigits_not_digit {rest : List Char} (h : startsWithDigit rest = false)
    (acc : Nat) : takeDigits rest acc = (acc, rest) := by
  cases rest with
  | nil => rfl
  | cons c r =>
    have hnone : digitVal c = none := by
      cases hd : digitVal c
      · rfl
      · rw [startsWithDigit, hd] at h
        cases h
    rw [takeDigits_cons, hnone]

theorem takeDigits_natToDigitsAux : ∀ fuel n, n < fuel →
    ∀ (acc : Nat) (rest : List Char),
      takeDigits (natToDigitsAux fuel n ++ rest) acc
        = takeDigits rest (acc * 10 ^ (natToDigitsAux fuel n).length + n) := by
  intro fuel
  induction fuel with
  | zero => intro n h; omega
  | succ f ih =>
    intro n h acc rest
    by_cases h10 : n < 10
    · rw [natToDigitsAux_succ, if_pos h10]
      show takeDigits (digitChar n :: rest) acc
        = takeDigits rest (acc * 10 ^ ([digitChar n] : List Char).length + n)
      rw [takeDigits_cons_digit (digitVal_digitChar n h10)]
      norm_num
    · rw [natToDigitsAux_succ, if_neg h10, List.append_assoc, ih (n / 10) (by omega)]
      show takeDigits (digitChar (n % 10) :: rest) _ = _
      rw [takeDigits_cons_digit (digitVal_digitChar (n % 10) (by omega))]
      congr 1
      simp only [List.length_append, List.length_cons, List.length_nil]
      rw [pow_succ]
      have h2 : acc * (10 ^ (natToDigitsAux f (n / 10)).length * 10)
          = acc * 10 ^ (natToDigitsAux f (n / 10)).length * 10 := by ring
      rw [h2]
      generalize acc * 10 ^ (natToDigitsAux f (n / 10)).length = Q
      omega

theorem takeDigits_natToDigits (n : Nat) (acc : Nat) (rest : List Char) :
    takeDigits (natToDigits n ++ rest) acc
      = takeDigits rest (acc * 10 ^ (natToDigits n).length + n) :=
  takeDigits_natToDigitsAux (n + 1) n (by omega) acc rest

theorem parseNatCore_cons_digit {c : Char} {d : Nat} (h : digitVal c = some d)
    (r : List Char) :
    parseNatCore (c :: r)
      = if c = '0' then if startsWithDigit r then none else some (0, r)
        else some (takeDigits r d) := by
  have hstep : parseNatCore (c :: r)
      = match digitVal c with
        | none => none
        | some d =>
          if c = '0' then if startsWithDigit r then none else some (0, r)
          else some (takeDigits r d) := rfl
  rw [hstep, h]

theorem parseNatCore_natToDigits (n : Nat) {rest : List Char}
    (h : startsWithDigit rest = false) :
    parseNatCore (natToDigits n ++ rest) = some (n, rest) := by
  by_cases h0 : n = 0
  · subst h0
    have hz0 : natToDigits 0 = [digitChar 0] := rfl
    rw [hz0]
    show parseNatCore (digitChar 0 :: rest) = some (0, rest)
    rw [parseNatCore_cons_digit (digitVal_digitChar 0 (by omega))]
    have hz : digitChar 0 = '0' := rfl
    rw [hz, if_pos rfl, h]
    simp
  · obtain ⟨d, ds, hd, hlt, hpos⟩ := natToDigits_shape n
    have hd1 : 1 ≤ d := hpos (by omega)
    rw [hd]
    show parseNatCore (digitChar d :: (ds ++ rest)) = some (n, rest)
    rw [parseNatCore_cons_digit (digitVal_digitChar d hlt)]
    have hne : ¬digitChar d = '0' := by
      intro hh
      have ht := congrArg Char.toNat hh
      rw [digitChar_toNat d hlt] at ht
      have h48 : ('0').toNat = 48 := rfl
      omega
    rw [if_neg hne]
    have hfull := takeDigits_natToDigits n 0 rest
    rw [hd] at hfull
    have hstep : takeDigits ((digitChar d :: ds) ++ rest) 0
        = takeDigits (ds ++ rest) d := by
      show takeDigits (digitChar d :: (ds ++ rest)) 0 = _
      rw [takeDigits_cons_digit (digitVal_digitChar d hlt)]
      norm_num
    rw [hstep] at hfull
    rw [hfull, takeDigits_not_digit h]
    simp

theorem parseNum_cons (c : Char) (r : List Char) :
    parseNum (c :: r)
      = if c = '-' then
          match parseNatCore r with
          | some (n, r2) => if numContinues r2 then none else some (-(n : Int), r2)
          | none => none
        else
          match parseNatCore (c :: r) with
          | some (n, r2) => if numContinues r2 then none else some ((n : Int), r2)
          | none => none := rfl

theorem parseNum_intToChars (i : Int) {rest : List Char}
    (hd : startsWithDigit rest = false) (hc : numContinues rest = false) :
    parseNum (intToChars i ++ rest) = some (i, rest) := by
  by_cases hneg : i < 0
  · rw [intToChars, if_pos hneg]
    show parseNum ('-' :: (natToDigits i.natAbs ++ rest)) = some (i, rest)
    rw [parseNum_cons, if_pos rfl, parseNatCore_natToDigits i.natAbs hd]
    have habs : ((i.natAbs : Int)) = -i := by omega
    simp [hc, habs]
  · rw [intToChars, if_neg hneg]
    obtain ⟨d, ds, hsh, hlt, _⟩ := natToDigits_shape i.natAbs
    rw [hsh]
    show parseNum (digitChar d :: (ds ++ rest)) = some (i, rest)
    rw [parseNum_cons]
    have hne : ¬digitChar d = '-' := by
      intro hh
      have ht := congrArg Char.toNat hh
      rw [digitChar_toNat d hlt] at ht
      have h45 : ('-').toNat = 45 := rfl
      omega
    rw [if_neg hne]
    have hcore : parseNatCore (digitChar d :: (ds ++ rest)) = some (i.natAbs, rest) := by
      rw [show digitChar d :: (ds ++ rest) = (digitChar d :: ds) ++ rest from rfl, ← hsh]
      exact parseNatCore_natToDigits i.natAbs hd
    rw [hcore]
    have habs : ((i.natAbs : Int)) = i := by omega
    simp [hc, habs]

theorem hexVal_hexChar : ∀ k, k < 16 → hexVal (hexChar k) = some k := by decide

theorem parseStrBody_quote (rest : List Char) :
    parseStrBody ('"' :: rest) = some ([], rest) := by
  rw [parseStrBody.eq_def]
  simp

theorem parseStrBody_escape_pair {e u : Char} (hne : ¬e = 'u')
    (hu : unescapeChar e = some u) {R : List Char} {p : JStr} {r2 : List Char}
    (hR : parseStrBody R = some (p, r2)) :
    parseStrBody ('\\' :: e :: R) = some (u :: p, r2) := by
  rw [parseStrBody.eq_def]
  simp [hne, hu, hR]

theorem parseStrBody_escape_hex {x y : Char} {a b : Nat} (hx : hexVal x = some a)
    (hy : hexVal y = some b) {R : List Char} {p : JStr} {r2 : List Char}
    (hR : parseStrBody R = some (p, r2)) :
    parseStrBody ('\\' :: 'u' :: '0' :: '0' :: x :: y :: R)
      = some (Char.ofNat (16 * a + b) :: p, r2) := by
  rw [parseStrBody.eq_def]
  have h0 : hexVal '0' = some 0 := rfl
  simp only [h0]
  simp [hx, hy, hR]

theorem parseStrBody_plain {c : Char} (h1 : ¬c = '"') (h2 : ¬c = '\\')
    (h3 : ¬c.toNat < 32) {R : List Char} {p : JStr} {r2 : List Char}
    (hR : parseStrBody R = some (p, r2)) :
    parseStrBody (c :: R) = some (c :: p, r2) := by
  rw [parseStrBody.eq_def]
  simp [h1, h2, h3, hR]

/-- Reading back an escaped string body recovers the original characters. -/
theorem parseStrBody_escBody (s : JStr) : ∀ rest : List Char,
    parseStrBody (escBody s ++ '"' :: rest) = some (s, rest) := by
  induction s with
  | nil =>
    intro rest
    show parseStrBody ('"' :: rest) = some ([], rest)
    exact parseStrBody_quote rest
  | cons c s2 ih =>
    intro rest
    have hesc : escBody (c :: s2) = escapeChar c ++ escBody s2 := by
      simp [escBody]
    rw [hesc, List.append_assoc]
    by_cases h1 : c = '"'
    · subst h1
      show parseStrBody ('\\' :: '"' :: (escBody s2 ++ '"' :: rest)) = _
      exact parseStrBody_escape_pair (by decide) (by decide) (ih rest)
    · by_cases h2 : c = '\\'
      · subst h2
        show parseStrBody ('\\' :: '\\' :: (escBody s2 ++ '"' :: rest)) = _
        exact parseStrBody_escape_pair (by decide) (by decide) (ih rest)
      · by_cases h3 : c = Char.ofNat 8
        · subst h3
          show parseStrBody ('\\' :: 'b' :: (escBody s2 ++ '"' :: rest)) = _
          exact parseStrBody_escape_pair (by decide) (by decide) (ih rest)
        · by_cases h4 : c = Char.ofNat 12
          · subst h4
            show parseStrBody ('\\' :: 'f' :: (escBody s2 ++ '"' :: rest)) = _
            exact parseStrBody_escape_pair (by decide) (by decide) (ih rest)
          · by_cases h5 : c = '\n'
            · subst h5
              show parseStrBody ('\\' :: 'n' :: (escBody s2 ++ '"' :: rest)) = _
              exact parseStrBody_escape_pair (by decide) (by decide) (ih rest)
            · by_cases h6 : c = '\r'
              · subst h6
                show parseStrBody ('\\' :: 'r' :: (escBody s2 ++ '"' :: rest)) = _
                exact parseStrBody_escape_pair (by decide) (by decide) (ih rest)
              · by_cases h7 : c = '\t'
                · subst h7
                  show parseStrBody ('\\' :: 't' :: (escBody s2 ++ '"' :: rest)) = _
                  exact parseStrBody_escape_pair (by decide) (by decide) (ih rest)
                · by_cases h8 : c.toNat < 32
                  · have hec : escapeChar c
                        = ['\\', 'u', '0', '0', hexChar (c.toNat / 16),
                           hexChar (c.toNat % 16)] := by
                      simp [escapeChar, h1, h2, h3, h4, h5, h6, h7, h8]
                    rw [hec]
                    show parseStrBody ('\\' :: 'u' :: '0' :: '0'
                        :: hexChar (c.toNat / 16) :: hexChar (c.toNat % 16)
                        :: (escBody s2 ++ '"' :: rest)) = _
                    rw [parseStrBody_escape_hex
                      (hexVal_hexChar (c.toNat / 16) (by omega))
                      (hexVal_hexChar (c.toNat % 16) (by omega)) (ih rest)]
                    have harith : 16 * (c.toNat / 16) + c.toNat % 16 = c.toNat := by
                      omega
                    rw [harith, Char.ofNat_toNat]
                  · have hec : escapeChar c = [c] := by
                      simp [escapeChar, h1, h2, h3, h4, h5, h6, h7, h8]
                    rw [hec]
                    show parseStrBody (c :: (escBody s2 ++ '"' :: rest)) = _
                    exact parseStrBody_plain h1 h2 h8 (ih rest)

/-! ## Step lemmas for the fueled parsers -/

theorem parseVal_succ_cons (f : Nat) {s : List Char} {c : Char} {rest : List Char}
    (h : skipWs s = c :: rest) :
    parseVal (f + 1) s
      = (if c = 'n' then
          match expectChars ['u', 'l', 'l'] rest with
          | some r => some (Json.null, r)
          | none => none
        else if c = 't' then
          match expectChars ['r', 'u', 'e'] rest with
          | some r => some (Json.bool true, r)
          | none => none
        else if c = 'f' then
          match expectChars ['a', 'l', 's', 'e'] rest with
          | some r => some (Json.bool false, r)
          | none => none
        else if c = '"' then
          match parseStrBody rest with
          | some (t, r) => some (Json.str t, r)
          | none => none
        else if c = '[' then
          match skipWs rest with
          | [] => none
          | d :: r =>
            if d = ']' then some (Json.arr [], r)
            else
              match parseElems f (d :: r) with
              | some (xs, r2) => some (Json.arr xs, r2)
              | none => none
        else if c = lbrace then
          match skipWs rest with
          | [] => none
          | d :: r =>
            if d = rbrace then some (Json.obj [], r)
            else
              match parseMembers f (d :: r) with
              | some (kvs, r2) => some (Json.obj kvs, r2)
              | none => none
        else
          match parseNum (c :: rest) with
          | some (n, r) => some (Json.num n, r)
          | none => none) := by
  rw [parseVal.eq_def]
  simp only [h]

theorem parseElems_succ_cons {f : Nat} {s : List Char} {j : Json} {r : List Char}
    {c : Char} {r2 : List Char} (h : parseVal f s = some (j, r))
    (hsk : skipWs r = c :: r2) :
    parseElems (f + 1) s
      = (if c = ',' then
          match parseElems f r2 with
          | some (xs, r3) => some (j :: xs, r3)
          | none => none
        else if c = ']' then some ([j], r2)
        else none) := by
  rw [parseElems.eq_def]
  simp only [h, hsk]

theorem parseMembers_succ_cons {f : Nat} {s r : List Char} {k : JStr}
    {r2 r3 : List Char} {v : Json} {r4 : List Char} {e : Char} {r5 : List Char}
    (h0 : skipWs s = '"' :: r)
    (h1 : parseStrBody r = some (k, r2))
    (h2 : skipWs r2 = ':' :: r3)
    (h3 : parseVal f r3 = some (v, r4))
    (h4 : skipWs r4 = e :: r5) :
    parseMembers (f + 1) s
      = (if e = ',' then
          match parseMembers f r5 with
          | some (kvs, r6) => some ((k, v) :: kvs, r6)
          | none => none
        else if e = rbrace then some ([(k, v)], r5)
        else none) := by
  rw [parseMembers.eq_def]
  simp only [h0, h1, h2, h3, h4]
  simp

/-! ## Heads of printed values -/

theorem intToChars_head (i : Int) :
    ∃ c cs, intToChars i = c :: cs ∧ (c = '-' ∨ ∃ d, d < 10 ∧ c = digitChar d) := by
  by_cases h : i < 0
  · exact ⟨'-', natToDigits i.natAbs, by rw [intToChars, if_pos h], Or.inl rfl⟩
  · obtain ⟨d, ds, hd, hlt, _⟩ := natToDigits_shape i.natAbs
    exact ⟨digitChar d, ds, by rw [intToChars, if_neg h, hd], Or.inr ⟨d, hlt, rfl⟩⟩

theorem numHead_not_branch {c : Char}
    (h : c = '-' ∨ ∃ d, d < 10 ∧ c = digitChar d) :
    isWsChar c = false ∧ ¬c = 'n' ∧ ¬c = 't' ∧ ¬c = 'f' ∧ ¬c = '"' ∧ ¬c = '['
      ∧ ¬c = lbrace ∧ ¬c = ']' ∧ ¬c = rbrace := by
  have H : ∀ d, d < 10 →
      isWsChar (digitChar d) = false ∧ ¬digitChar d = 'n' ∧ ¬digitChar d = 't'
        ∧ ¬digitChar d = 'f' ∧ ¬digitChar d = '"' ∧ ¬digitChar d = '['
        ∧ ¬digitChar d = lbrace ∧ ¬digitChar d = ']' ∧ ¬digitChar d = rbrace := by
    decide
  rcases h with h | ⟨d, hd, h⟩
  · subst h
    decide
  · subst h
    exact H d hd

theorem stringifyJson_head (j : Json) :
    ∃ c cs, stringifyJson j = c :: cs
      ∧ isWsChar c = false ∧ ¬c = ']' ∧ ¬c = rbrace := by
  cases j with
  | null => exact ⟨'n', ['u', 'l', 'l'], rfl, by decide, by decide, by decide⟩
  | bool b =>
    cases b with
    | true => exact ⟨'t', ['r', 'u', 'e'], rfl, by decide, by decide, by decide⟩
    | false => exact ⟨'f', ['a', 'l', 's', 'e'], rfl, by decide, by decide, by decide⟩
  | num n =>
    obtain ⟨c, cs, hcs, hcase⟩ := intToChars_head n
    obtain ⟨hws, _, _, _, _, _, _, hrb, hrb2⟩ := numHead_not_branch hcase
    exact ⟨c, cs, by rw [show stringifyJson (Json.num n) = intToChars n from
      by simp [stringifyJson], hcs], hws, hrb, hrb2⟩
  | str s =>
    exact ⟨'"', escBody s ++ ['"'],
      by simp [stringifyJson, quoteStr], by decide, by decide, by decide⟩
  | arr xs =>
    exact ⟨'[', stringifyElems xs ++ [']'],
      by simp [stringifyJson], by decide, by decide, by decide⟩
  | obj kvs =>
    exact ⟨lbrace, stringifyMembers kvs ++ [rbrace],
      by simp [stringifyJson], by decide, by decide, by decide⟩

theorem boundary_comma (X : List Char) :
    startsWithDigit (',' :: X) = false ∧ numContinues (',' :: X) = false := ⟨rfl, rfl⟩

theorem boundary_rbracket (X : List Char) :
    startsWithDigit (']' :: X) = false ∧ numContinues (']' :: X) = false := ⟨rfl, rfl⟩

theorem boundary_rbrace (X : List Char) :
    startsWithDigit (rbrace :: X) = false ∧ numContinues (rbrace :: X) = false :=
  ⟨rfl, rfl⟩

theorem sizeJ_pos (j : Json) : 1 ≤ sizeJ j := by
  cases j <;> simp only [sizeJ] <;> omega

theorem stringifyElems_cons_head (x : Json) (xs : List Json) :
    ∃ tail, stringifyElems (x :: xs) = stringifyJson x ++ tail := by
  cases xs with
  | nil => exact ⟨[], by simp [stringifyElems]⟩
  | cons y ys => exact ⟨',' :: stringifyElems (y :: ys), by simp [stringifyElems]⟩

theorem stringifyMembers_cons_head (k : JStr) (v : Json) (kvs : List (JStr × Json)) :
    ∃ tail, stringifyMembers ((k, v) :: kvs) = '"' :: tail := by
  cases kvs with
  | nil =>
    exact ⟨(escBody k ++ ['"']) ++ (':' :: stringifyJson v),
      by simp [stringifyMembers, quoteStr]⟩
  | cons m ms =>
    exact ⟨(escBody k ++ ['"']) ++ (':' :: (stringifyJson v
        ++ (',' :: stringifyMembers (m :: ms)))),
      by simp [stringifyMembers, quoteStr]⟩

/-- The printed text of a value followed by any boundary suffix parses back
to exactly that value (mutually with element and member lists). -/
theorem parse_stringify_mutual : ∀ fuel : Nat,
    (∀ (j : Json) (rest : List Char), sizeJ j ≤ fuel →
      startsWithDigit rest = false → numContinues rest = false →
      parseVal fuel (stringifyJson j ++ rest) = some (j, rest))
    ∧ (∀ (x : Json) (xs : List Json) (rest : List Char), sizeElems (x :: xs) ≤ fuel →
      parseElems fuel (stringifyElems (x :: xs) ++ (']' :: rest)) = some (x :: xs, rest))
    ∧ (∀ (k : JStr) (v : Json) (kvs : List (JStr × Json)) (rest : List Char),
      sizeMembers ((k, v) :: kvs) ≤ fuel →
      parseMembers fuel (stringifyMembers ((k, v) :: kvs) ++ (rbrace :: rest))
        = some ((k, v) :: kvs, rest)) := by
  intro fuel
  induction fuel with
  | zero =>
    refine ⟨fun j rest h _ _ => absurd h (by have := sizeJ_pos j; omega),
            fun x xs rest h => absurd h (by simp only [sizeElems]; omega),
            fun k v kvs rest h => absurd h (by simp only [sizeMembers]; omega)⟩
  | succ f ih =>
    obtain ⟨ih1, ih2, ih3⟩ := ih
    refine ⟨?_, ?_, ?_⟩
    · intro j rest hsz hd hc
      cases j with
      | null =>
        have hs : stringifyJson Json.null ++ rest = 'n' :: ('u' :: 'l' :: 'l' :: rest) := rfl
        rw [hs, parseVal_succ_cons f (skipWs_cons_of_not_ws (by decide) _), if_pos rfl]
        have he : expectChars ['u', 'l', 'l'] ('u' :: 'l' :: 'l' :: rest) = some rest :=
          expectChars_append ['u', 'l', 'l'] rest
        rw [he]
      | bool b =>
        cases b with
        | true =>
          have hs : stringifyJson (Json.bool true) ++ rest
              = 't' :: ('r' :: 'u' :: 'e' :: rest) := rfl
          rw [hs, parseVal_succ_cons f (skipWs_cons_of_not_ws (by decide) _),
            if_neg (by decide), if_pos rfl]
          have he : expectChars ['r', 'u', 'e'] ('r' :: 'u' :: 'e' :: rest) = some rest :=
            expectChars_append ['r', 'u', 'e'] rest
          rw [he]
        | false =>
          have hs : stringifyJson (Json.bool false) ++ rest
              = 'f' :: ('a' :: 'l' :: 's' :: 'e' :: rest) := rfl
          rw [hs, parseVal_succ_cons f (skipWs_cons_of_not_ws (by decide) _),
            if_neg (by decide), if_neg (by decide), if_pos rfl]
          have he : expectChars ['a', 'l', 's', 'e'] ('a' :: 'l' :: 's' :: 'e' :: rest)
              = some rest := expectChars_append ['a', 'l', 's', 'e'] rest
          rw [he]
      | num n =>
        obtain ⟨c, cs, hcs, hcase⟩ := intToChars_head n
        obtain ⟨hws, hn, ht, hf, hq, hbr, hbl, _, _⟩ := numHead_not_branch hcase
        have hs : stringifyJson (Json.num n) ++ rest = c :: (cs ++ rest) := by
          rw [show stringifyJson (Json.num n) = intToChars n from by simp [stringifyJson],
            hcs]
          simp
        rw [hs, parseVal_succ_cons f (skipWs_cons_of_not_ws hws _),
          if_neg hn, if_neg ht, if_neg hf, if_neg hq, if_neg hbr, if_neg hbl]
        have hre : c :: (cs ++ rest) = intToChars n ++ rest := by
          rw [hcs]
          simp
        rw [hre, parseNum_intToChars n hd hc]
      | str t =>
        have hs : stringifyJson (Json.str t) ++ rest
            = '"' :: (escBody t ++ '"' :: rest) := by
          simp [stringifyJson, quoteStr]
        rw [hs, parseVal_succ_cons f (skipWs_cons_of_not_ws (by decide) _),
          if_neg (by decide), if_neg (by decide), if_neg (by decide), if_pos rfl]
        rw [parseStrBody_escBody t rest]
      | arr xs =>
        cases xs with
        | nil =>
          have hs : stringifyJson (Json.arr []) ++ rest = '[' :: (']' :: rest) := by
            simp [stringifyJson, stringifyElems]
          rw [hs, parseVal_succ_cons f (skipWs_cons_of_not_ws (by decide) _),
            if_neg (by decide), if_neg (by decide), if_neg (by decide),
            if_neg (by decide), if_pos rfl]
          rw [skipWs_cons_of_not_ws (by decide)]
          simp
        | cons x xs2 =>
          have hb : sizeElems (x :: xs2) ≤ f := by
            simp only [sizeJ] at hsz
            omega
          obtain ⟨c, cs, hhead, hwsc, hne1, _⟩ := stringifyJson_head x
          obtain ⟨tail, htail⟩ := stringifyElems_cons_head x xs2
          have hs : stringifyJson (Json.arr (x :: xs2)) ++ rest
              = '[' :: (stringifyElems (x :: xs2) ++ (']' :: rest)) := by
            simp [stringifyJson]
          rw [hs, parseVal_succ_cons f (skipWs_cons_of_not_ws (by decide) _),
            if_neg (by decide), if_neg (by decide), if_neg (by decide),
            if_neg (by decide), if_pos rfl]
          have hform : stringifyElems (x :: xs2) ++ (']' :: rest)
              = c :: (cs ++ (tail ++ (']' :: rest))) := by
            rw [htail, hhead]
            simp
          rw [hform]
          simp only [skipWs_cons_of_not_ws hwsc]
          rw [if_neg hne1, ← hform, ih2 x xs2 rest hb]
      | obj kvs =>
        cases kvs with
        | nil =>
          have hs : stringifyJson (Json.obj []) ++ rest = lbrace :: (rbrace :: rest) := by
            simp [stringifyJson, stringifyMembers]
          rw [hs, parseVal_succ_cons f (skipWs_cons_of_not_ws (by decide) _),
            if_neg (by decide), if_neg (by decide), if_neg (by decide),
            if_neg (by decide), if_neg (by decide), if_pos rfl]
          rw [skipWs_cons_of_not_ws (by decide)]
          simp
        | cons kv kvs2 =>
          obtain ⟨k, v⟩ := kv
          have hb : sizeMembers ((k, v) :: kvs2) ≤ f := by
            simp only [sizeJ] at hsz
            omega
          have hs : stringifyJson (Json.obj ((k, v) :: kvs2)) ++ rest
              = lbrace :: (stringifyMembers ((k, v) :: kvs2) ++ (rbrace :: rest)) := by
            simp [stringifyJson]
          rw [hs, parseVal_succ_cons f (skipWs_cons_of_not_ws (by decide) _),
            if_neg (by decide), if_neg (by decide), if_neg (by decide),
            if_neg (by decide), if_neg (by decide), if_pos rfl]
          obtain ⟨tail, htail⟩ := stringifyMembers_cons_head k v kvs2
          have hform : stringifyMembers ((k, v) :: kvs2) ++ (rbrace :: rest)
              = '"' :: (tail ++ (rbrace :: rest)) := by
            rw [htail]
            simp
          rw [hform]
          simp only [skipWs_cons_of_not_ws (show isWsChar '"' = false by decide)]
          rw [if_neg (by decide), ← hform, ih3 k v kvs2 rest hb]
    · intro x xs rest hsz
      cases xs with
      | nil =>
        have hsz1 : sizeJ x ≤ f := by
          simp only [sizeElems] at hsz
          omega
        have hSE : stringifyElems [x] ++ (']' :: rest)
            = stringifyJson x ++ (']' :: rest) := by
          simp [stringifyElems]
        rw [hSE]
        have hval : parseVal f (stringifyJson x ++ (']' :: rest)) = some (x, ']' :: rest) :=
          ih1 x (']' :: rest) hsz1 (boundary_rbracket rest).1 (boundary_rbracket rest).2
        rw [parseElems_succ_cons hval (skipWs_cons_of_not_ws (by decide) _),
          if_neg (by decide), if_pos rfl]
      | cons y ys =>
        have hsz1 : sizeJ x ≤ f := by
          simp only [sizeElems] at hsz
          omega
        have hsz2 : sizeElems (y :: ys) ≤ f := by
          simp only [sizeElems] at hsz ⊢
          omega
        have hSE : stringifyElems (x :: y :: ys) ++ (']' :: rest)
            = stringifyJson x ++ (',' :: (stringifyElems (y :: ys) ++ (']' :: rest))) := by
          simp [stringifyElems]
        rw [hSE]
        have hval := ih1 x (',' :: (stringifyElems (y :: ys) ++ (']' :: rest))) hsz1
          (boundary_comma _).1 (boundary_comma _).2
        rw [parseElems_succ_cons hval (skipWs_cons_of_not_ws (by decide) _), if_pos rfl]
        rw [ih2 y ys rest hsz2]
    · intro k v kvs rest hsz
      cases kvs with
      | nil =>
        have hsz1 : sizeJ v ≤ f := by
          simp only [sizeMembers] at hsz
          omega
        have hform : stringifyMembers [(k, v)] ++ (rbrace :: rest)
            = '"' :: (escBody k ++ ('"' :: (':' :: (stringifyJson v
                ++ (rbrace :: rest))))) := by
          simp [stringifyMembers, quoteStr]
        rw [hform]
        have h0 : skipWs ('"' :: (escBody k ++ ('"' :: (':' :: (stringifyJson v
            ++ (rbrace :: rest))))))
            = '"' :: (escBody k ++ ('"' :: (':' :: (stringifyJson v
                ++ (rbrace :: rest))))) :=
          skipWs_cons_of_not_ws (by decide) _
        have h1 : parseStrBody (escBody k ++ ('"' :: (':' :: (stringifyJson v
            ++ (rbrace :: rest)))))
            = some (k, ':' :: (stringifyJson v ++ (rbrace :: rest))) :=
          parseStrBody_escBody k _
        have h2 : skipWs (':' :: (stringifyJson v ++ (rbrace :: rest)))
            = ':' :: (stringifyJson v ++ (rbrace :: rest)) :=
          skipWs_cons_of_not_ws (by decide) _
        have h3 : parseVal f (stringifyJson v ++ (rbrace :: rest))
            = some (v, rbrace :: rest) :=
          ih1 v (rbrace :: rest) hsz1 (boundary_rbrace rest).1 (boundary_rbrace rest).2
        have h4 : skipWs (rbrace :: rest) = rbrace :: rest :=
          skipWs_cons_of_not_ws (by decide) _
        rw [parseMembers_succ_cons h0 h1 h2 h3 h4, if_neg (by decide), if_pos rfl]
      | cons kv2 kvs2 =>
        obtain ⟨k2, v2⟩ := kv2
        have hsz1 : sizeJ v ≤ f := by
          simp only [sizeMembers] at hsz
          omega
        have hsz2 : sizeMembers ((k2, v2) :: kvs2) ≤ f := by
          simp only [sizeMembers] at hsz ⊢
          omega
        have hform : stringifyMembers ((k, v) :: (k2, v2) :: kvs2) ++ (rbrace :: rest)
            = '"' :: (escBody k ++ ('"' :: (':' :: (stringifyJson v
                ++ (',' :: (stringifyMembers ((k2, v2) :: kvs2)
                  ++ (rbrace :: rest))))))) := by
          simp [stringifyMembers, quoteStr]
        rw [hform]
        have h0 : skipWs ('"' :: (escBody k ++ ('"' :: (':' :: (stringifyJson v
            ++ (',' :: (stringifyMembers ((k2, v2) :: kvs2) ++ (rbrace :: rest))))))))
            = '"' :: (escBody k ++ ('"' :: (':' :: (stringifyJson v
                ++ (',' :: (stringifyMembers ((k2, v2) :: kvs2)
                  ++ (rbrace :: rest))))))) :=
          skipWs_cons_of_not_ws (by decide) _
        have h1 : parseStrBody (escBody k ++ ('"' :: (':' :: (stringifyJson v
            ++ (',' :: (stringifyMembers ((k2, v2) :: kvs2) ++ (rbrace :: rest)))))))
            = some (k, ':' :: (stringifyJson v
                ++ (',' :: (stringifyMembers ((k2, v2) :: kvs2) ++ (rbrace :: rest))))) :=
          parseStrBody_escBody k _
        have h2 : skipWs (':' :: (stringifyJson v
            ++ (',' :: (stringifyMembers ((k2, v2) :: kvs2) ++ (rbrace :: rest)))))
            = ':' :: (stringifyJson v
                ++ (',' :: (stringifyMembers ((k2, v2) :: kvs2) ++ (rbrace :: rest)))) :=
          skipWs_cons_of_not_ws (by decide) _
        have h3 : parseVal f (stringifyJson v
            ++ (',' :: (stringifyMembers ((k2, v2) :: kvs2) ++ (rbrace :: rest))))
            = some (v, ',' :: (stringifyMembers ((k2, v2) :: kvs2)
                ++ (rbrace :: rest))) :=
          ih1 v _ hsz1 (boundary_comma _).1 (boundary_comma _).2
        have h4 : skipWs (',' :: (stringifyMembers ((k2, v2) :: kvs2)
            ++ (rbrace :: rest)))
            = ',' :: (stringifyMembers ((k2, v2) :: kvs2) ++ (rbrace :: rest)) :=
          skipWs_cons_of_not_ws (by decide) _
        rw [parseMembers_succ_cons h0 h1 h2 h3 h4, if_pos rfl]
        rw [ih3 k2 v2 kvs2 rest hsz2]

mutual

theorem sizeJ_le_len : ∀ j : Json, sizeJ j ≤ (stringifyJson j).length
  | .null => by simp [sizeJ, stringifyJson]
  | .bool true => by simp [sizeJ, stringifyJson]
  | .bool false => by simp [sizeJ, stringifyJson]
  | .num n => by
    obtain ⟨c, cs, hcs, _⟩ := intToChars_head n
    simp only [sizeJ, stringifyJson, hcs, List.length_cons]
    omega
  | .str s => by
    simp [sizeJ, stringifyJson, quoteStr]
  | .arr xs => by
    have h := sizeElems_le_len xs
    simp only [sizeJ, stringifyJson, List.length_cons, List.length_append,
      List.length_singleton]
    omega
  | .obj kvs => by
    have h := sizeMembers_le_len kvs
    simp only [sizeJ, stringifyJson, List.length_cons, List.length_append,
      List.length_singleton]
    omega

theorem sizeElems_le_len : ∀ xs : List Json, sizeElems xs ≤ (stringifyElems xs).length + 1
  | [] => by simp [sizeElems, stringifyElems]
  | [x] => by
    have h := sizeJ_le_len x
    simp only [sizeElems, stringifyElems]
    omega
  | x :: y :: ys => by
    have h1 := sizeJ_le_len x
    have h2 := sizeElems_le_len (y :: ys)
    simp only [sizeElems, stringifyElems, List.length_append, List.length_cons] at h2 ⊢
    omega

theorem sizeMembers_le_len : ∀ kvs : List (JStr × Json),
    sizeMembers kvs ≤ (stringifyMembers kvs).length + 1
  | [] => by simp [sizeMembers, stringifyMembers]
  | [(k, v)] => by
    have h := sizeJ_le_len v
    simp only [sizeMembers, stringifyMembers, List.length_append, List.length_cons]
    omega
  | (k, v) :: m :: ms => by
    have h1 := sizeJ_le_len v
    have h2 := sizeMembers_le_len (m :: ms)
    simp only [sizeMembers, stringifyMembers, List.length_append,
      List.length_cons] at h2 ⊢
    omega

end

/-- `JSON.parse` is a left inverse of `JSON.stringify` on the model. -/
theorem parseJson_stringifyJson (j : Json) : parseJson (stringifyJson j) = some j := by
  unfold parseJson
  have hfuel : sizeJ j ≤ (stringifyJson j).length + 1 :=
    le_trans (sizeJ_le_len j) (by omega)
  have h := (parse_stringify_mutual ((stringifyJson j).length + 1)).1 j [] hfuel rfl rfl
  rw [List.append_nil] at h
  rw [h]
  rfl

theorem isPrefixOf_append_self (p r : List Char) : p.isPrefixOf (p ++ r) = true :=
  List.isPrefixOf_iff_prefix.2 (List.prefix_append p r)

theorem replaceFirst_self_append (pat t : List Char) (hne : pat ≠ []) :
    replaceFirst pat (pat ++ t) = t := by
  cases pat with
  | nil => exact absurd rfl hne
  | cons c p2 =>
    have hform : (c :: p2) ++ t = c :: (p2 ++ t) := rfl
    rw [hform, replaceFirst]
    have hc : (c :: p2).isPrefixOf (c :: (p2 ++ t)) = true :=
      isPrefixOf_append_self (c :: p2) t
    simp only [hc, if_true]
    show (c :: (p2 ++ t)).drop (c :: p2).length = t
    rw [show (c :: p2).length = p2.length + 1 from rfl, List.drop_succ_cons,
      List.drop_left]

/-- C8: the storage transport encodes `data` as `JSON.stringify(data)`; the
other context's arrival listener decodes it with `JSON.parse` and
broadcasts a value equal to the original — `JSON.parse ∘ JSON.stringify`
is the identity on the (integer-numbered) JSON model. -/
theorem c8_roundtrip :
    (∀ j : Json, parseJson (stringifyJson j) = some j)
    ∧ (∀ (j : Json) (t : JStr) (s : LSState),
        getItem s.store (storageKey t) = none →
        (sendStorage s t j false).2.1
            = [⟨storageKey t, none, some (stringifyJson j)⟩,
               ⟨storageKey t, some (stringifyJson j), none⟩]
        ∧ arrivalHandler ⟨storageKey t, none, some (stringifyJson j)⟩ = some (t, j)) := by
  refine ⟨parseJson_stringifyJson, ?_⟩
  intro j t s h
  constructor
  · rw [sendStorage_empty j false h]
  · unfold arrivalHandler
    have hg : (prefixChars.isPrefixOf (storageKey t)
        && ((none : Option JStr) == none)) = true := by
      rw [show storageKey t = prefixChars ++ t from rfl, isPrefixOf_append_self]
      rfl
    simp only [hg, if_true]
    rw [show storageKey t = prefixChars ++ t from rfl,
      replaceFirst_self_append prefixChars t (by decide)]
    simp only [Option.getD_some]
    rw [parseJson_stringifyJson j]

/-- Witness for `c8_roundtrip`: a nested concrete value round-trips, and a
concrete storage send is decoded exactly by the arrival listener. -/
theorem c8_roundtrip_witness :
    parseJson (stringifyJson (Json.obj [("a".data,
        Json.arr [Json.num (-12), Json.str "h\"i\n".data, Json.bool true, Json.null])]))
      = some (Json.obj [("a".data,
        Json.arr [Json.num (-12), Json.str "h\"i\n".data, Json.bool true, Json.null])])
    ∧ ((sendStorage ⟨[], []⟩ "score".data (Json.num 7) false).2.1
        = [⟨storageKey "score".data, none, some (stringifyJson (Json.num 7))⟩,
           ⟨storageKey "score".data, some (stringifyJson (Json.num 7)), none⟩]
      ∧ arrivalHandler ⟨storageKey "score".data, none, some (stringifyJson (Json.num 7))⟩
        = some ("score".data, Json.num 7)) :=
  ⟨c8_roundtrip.1 _, c8_roundtrip.2 (Json.num 7) "score".data ⟨[], []⟩ rfl⟩

end AcrossTabs
